import Mathlib

/-!
Verification of the Flow-Automation repository (content.js, background.js)
against its natural-language specification.  The JavaScript is shallowly
embedded: stateful loops become explicit state passing, the cooperative
scheduler is modelled by traces of flag observations, and the DOM is
abstracted to the data each callback actually reads.
-/

namespace Flow

/-! ## Data model shared by content.js (automationState, settings) -/

structure Settings where
  timeout : Nat
  delay : Nat
  retries : Nat
  downloadDelay : Nat
deriving Repr, DecidableEq

/-- One image as collected from the page by extractAllImages: url, prompt
(alt with the "Flow Image: " marker stripped), the structural position
(data-index) recorded at production time, and the DOM arrival index. -/
structure ImageData where
  url : String
  projPrompt : String
  order : Int
  index : Nat
deriving Repr, DecidableEq

/-- A page image as the DOM presents it: src, alt, and the optional
data-index attribute of the closest indexed ancestor. -/
structure PageImg where
  src : String
  alt : String
  dataIndex : Option Int
deriving Repr, DecidableEq

/-- automationState from content.js. -/
structure AutomationState where
  isRunning : Bool
  isPaused : Bool
  prompts : List String
  currentIndex : Nat
  characterImageData : Option String
  settings : Settings
  generatedImages : List ImageData
  lastGeneratedCount : Nat
deriving Repr, DecidableEq

/-! ## extractAllImages (content.js lines 551-572)

The JS collects every generated image in DOM order, records
`order := data-index of the closest indexed ancestor, else the DOM index`,
then sorts with the stable comparator `(a, b) => a.order - b.order`. -/

/-- JS String.prototype.replace with a string pattern replaces only the
first occurrence. -/
def replaceFirst (s pat rep : String) : String :=
  match s.splitOn pat with
  | [] => s
  | [_] => s
  | a :: rest => a ++ rep ++ String.intercalate pat rest

/-- Comparator used by extractAllImages: ascending by recorded order. -/
def imgLE (a b : ImageData) : Prop := a.order ≤ b.order

instance : DecidableRel imgLE := fun a b => Int.decLe a.order b.order

instance : IsTotal ImageData imgLE := ⟨fun a b => Int.le_total a.order b.order⟩

instance : IsTrans ImageData imgLE := ⟨fun _ _ _ => Int.le_trans⟩

/-- The collection pass of extractAllImages, before sorting. -/
def collectImages (imgs : List PageImg) : List ImageData :=
  imgs.enum.map (fun p =>
    { url := p.2.src
      projPrompt := replaceFirst p.2.alt "Flow Image: " ""
      order := p.2.dataIndex.getD (Int.ofNat p.1)
      index := p.1 })

/-- extractAllImages: collect in DOM order, then stable-sort ascending by
the recorded order field (JS Array.prototype.sort is stable). -/
def extractAllImages (imgs : List PageImg) : List ImageData :=
  List.insertionSort imgLE (collectImages imgs)

/-! ## Events emitted by the content script -/

inductive Event where
  | progress (current total : Nat) (promptText : String)
  | errorEvt (promptNumber : Nat) (fatal : Bool)
  | log (msg : String) (severity : String)
  | generationComplete (total : Nat)
deriving Repr, DecidableEq

/-- The current fields of the Progress events of a trace, in emission order. -/
def progressCurrents : List Event → List Nat
  | [] => []
  | Event.progress c _ _ :: rest => c :: progressCurrents rest
  | _ :: rest => progressCurrents rest

/-! ## runAutomation (content.js lines 633-684)

The loop reads automationState.isRunning / isPaused at its checkpoints;
those flags can change only at await points (JS is single-threaded).  An
IterObs records, for one loop iteration, the flags at iteration entry
(line 638), the flags observed after each sleep of the pause-wait loop
(line 643-646), and the boolean outcome of processPrompt for that item. -/

structure Flags where
  isRunning : Bool
  isPaused : Bool
deriving Repr, DecidableEq

structure IterObs where
  entry : Flags
  pauseObs : List Flags
  success : Bool

inductive PauseResult where
  | proceed (f : Flags)
  | stopped
  | blocked
deriving Repr, DecidableEq

/-- The pause-wait loop: while (isPaused) { await sleep(500);
if (!isRunning) break; }.  Each element of the observation list is the
flag pair visible after one sleep; blocked marks exhaustion of the
observation trace while still paused (the JS loop would still be waiting). -/
def pauseWait : Flags → List Flags → PauseResult
  | f, obs =>
    if f.isPaused then
      match obs with
      | [] => PauseResult.blocked
      | g :: rest => if g.isRunning then pauseWait g rest else PauseResult.stopped
    else PauseResult.proceed f

inductive RunOutcome where
  | completed
  | stopped
  | blockedInPause
deriving Repr, DecidableEq

/-- The for-loop of runAutomation over the remaining prompts, starting at
index i, with processPrompt abstracted to the success bit of its IterObs.
Returns the emitted events (progress / error / the stop log) and how the
loop exited. -/
def runLoop (total : Nat) (obs : Nat → IterObs) : Nat → List String → List Event × RunOutcome
  | _, [] => ([], RunOutcome.completed)
  | i, p :: rest =>
    let o := obs i
    if o.entry.isRunning then
      match pauseWait o.entry o.pauseObs with
      | PauseResult.blocked => ([], RunOutcome.blockedInPause)
      | PauseResult.stopped => ([], RunOutcome.stopped)
      | PauseResult.proceed f =>
        if f.isRunning then
          let errs := if o.success then [] else [Event.errorEvt (i + 1) false]
          let r := runLoop total obs (i + 1) rest
          (Event.progress i total p :: (errs ++ Event.progress (i + 1) total p :: r.1), r.2)
        else ([], RunOutcome.stopped)
    else ([Event.log "Automation stopped" "warning"], RunOutcome.stopped)

/-- runAutomation: the loop followed by the completion block, which
re-extracts the page images and emits GENERATION_COMPLETE. -/
def runAutomation (prompts : List String) (startIndex : Nat) (obs : Nat → IterObs)
    (page : List PageImg) : List Event × RunOutcome :=
  let r := runLoop prompts.length obs startIndex prompts
  (r.1 ++ [Event.generationComplete (extractAllImages page).length], r.2)

/-- The sequence of Progress currents a completed run actually produces:
for each item the pair i, i+1. -/
def progressPattern : Nat → Nat → List Nat
  | _, 0 => []
  | i, n + 1 => i :: (i + 1) :: progressPattern (i + 1) n

/-! ## processPrompt (content.js lines 581-628)

for (attempt = 1; attempt <= retries; attempt++): run the step sequence;
waitForGenerationComplete true ends the call with success; a thrown error
is caught and logged; after a failed attempt with attempt < retries the
fixed 2000 ms backoff sleep runs.  After the loop: failure.  One attempt
is abstracted to its outcome. -/

inductive AttemptOutcome where
  | thrown
  | genTimeout
  | success
deriving Repr, DecidableEq

/-- The retry loop over the remaining attempt numbers, accumulating the
number of attempts performed and of backoff sleeps taken.  Returns
(result, attemptsPerformed, backoffSleeps). -/
def runAttempts (retries : Nat) (att : Nat → AttemptOutcome) :
    List Nat → Nat → Nat → Bool × Nat × Nat
  | [], made, slept => (false, made, slept)
  | a :: rest, made, slept =>
    match att a with
    | AttemptOutcome.success => (true, made + 1, slept)
    | _ => runAttempts retries att rest (made + 1) (if a < retries then slept + 1 else slept)

/-- processPrompt with its step sequence abstracted per attempt; attempt
numbers run from 1 to retries as in the JS for-loop. -/
def processPrompt (retries : Nat) (att : Nat → AttemptOutcome) : Bool × Nat × Nat :=
  runAttempts retries att (List.range' 1 retries) 0 0

/-! ## waitForElement (content.js lines 74-108) and
waitForAnyElement (content.js lines 192-236)

Both check the condition synchronously first (no observer or interval is
created when it already holds), then install a MutationObserver and a
setInterval.  The trace events model what each callback reads: a mutation
notification carries whether the queried element is present at that
moment, a tick carries the elapsed time and the same presence bit.
waitForElement's interval callback only tests the deadline; it never
queries the element.  waitForAnyElement's interval callback first queries
the element, then tests the deadline. -/

inductive WaitEv where
  | mutation (present : Bool)
  | tick (elapsed : Nat) (present : Bool)
deriving Repr, DecidableEq

inductive WaitRes where
  | pending
  | satisfied
  | timedOut
deriving Repr, DecidableEq

structure WaitSt where
  observerActive : Bool
  intervalActive : Bool
  result : WaitRes
deriving Repr, DecidableEq

/-- Shared entry behaviour: resolve immediately when the element already
exists, otherwise install the observer and the interval. -/
def waitInit (present : Bool) : WaitSt :=
  if present then ⟨false, false, WaitRes.satisfied⟩ else ⟨true, true, WaitRes.pending⟩

/-- One callback of waitForElement.  The mutation callback re-queries and,
on success, disconnects only the observer before resolving.  The interval
callback tests only the deadline; past it, it disconnects the observer,
clears itself and resolves null (a no-op resolve if already resolved). -/
def waitElemStep (timeout : Nat) (s : WaitSt) : WaitEv → WaitSt
  | WaitEv.mutation present =>
    if s.observerActive && present then
      { s with observerActive := false
               result := if s.result = WaitRes.pending then WaitRes.satisfied else s.result }
    else s
  | WaitEv.tick elapsed _ =>
    if s.intervalActive && decide (timeout < elapsed) then
      { observerActive := false, intervalActive := false
        result := if s.result = WaitRes.pending then WaitRes.timedOut else s.result }
    else s

def runWaitElem (timeout : Nat) (present0 : Bool) (trace : List WaitEv) : WaitSt :=
  trace.foldl (waitElemStep timeout) (waitInit present0)

/-- One callback of waitForAnyElement.  Its interval callback re-queries
the condition before testing the deadline, and on either outcome stops
both the observer and itself. -/
def waitAnyStep (timeout : Nat) (s : WaitSt) : WaitEv → WaitSt
  | WaitEv.mutation present =>
    if s.observerActive && present then
      { s with observerActive := false
               result := if s.result = WaitRes.pending then WaitRes.satisfied else s.result }
    else s
  | WaitEv.tick elapsed present =>
    if s.intervalActive then
      if present then
        { observerActive := false, intervalActive := false
          result := if s.result = WaitRes.pending then WaitRes.satisfied else s.result }
      else if timeout < elapsed then
        { observerActive := false, intervalActive := false
          result := if s.result = WaitRes.pending then WaitRes.timedOut else s.result }
      else s
    else s

def runWaitAny (timeout : Nat) (present0 : Bool) (trace : List WaitEv) : WaitSt :=
  trace.foldl (waitAnyStep timeout) (waitInit present0)

/-! ## Control message handlers (content.js lines 801-815) -/

inductive ControlMsg where
  | pauseGeneration
  | resumeGeneration
  | stopGeneration
deriving Repr, DecidableEq

/-- The PAUSE_GENERATION / RESUME_GENERATION / STOP_GENERATION cases of the
content-script message listener; each answers { success: true }. -/
def handleControlMessage (s : AutomationState) : ControlMsg → AutomationState × Bool
  | ControlMsg.pauseGeneration => ({ s with isPaused := true }, true)
  | ControlMsg.resumeGeneration => ({ s with isPaused := false }, true)
  | ControlMsg.stopGeneration => ({ s with isRunning := false, isPaused := false }, true)

/-! ## background.js: download queue -/

structure DlTask where
  url : String
deriving Repr, DecidableEq

/-- downloadState from background.js. -/
structure DownloadState where
  isDownloading : Bool
  queue : List DlTask
  completed : Nat
  total : Nat
  pfx : String
  delay : Nat
deriving Repr, DecidableEq

inductive BgEvent where
  | downloadProgress (current total : Nat) (filename : String)
  | downloadComplete (total : Nat)
deriving Repr, DecidableEq

/-- JS String(n).padStart(3, '0'): left-pad with zeros up to length 3,
never truncating. -/
def padStart3Zero (s : String) : String :=
  if 3 ≤ s.length then s else String.mk (List.replicate (3 - s.length) '0') ++ s

/-- Filename for the item at 0-based queue position i. -/
def downloadFilename (pfx : String) (i : Nat) : String :=
  pfx ++ "_" ++ padStart3Zero (toString (i + 1)) ++ ".png"

/-- The download loop of processDownloadQueue: per item derive the
filename, attempt the download (outcome given by the ok oracle on the
queue position), on success increment completed and emit
DOWNLOAD_PROGRESS; failures log and continue.  Returns the final
completed count, the emitted events, and every filename handed to the
downloads API, in order. -/
def dlLoop (pfx : String) (total : Nat) (ok : Nat → Bool) :
    List DlTask → Nat → Nat → Nat × List BgEvent × List String
  | [], _, completed => (completed, [], [])
  | _ :: rest, i, completed =>
    let name := downloadFilename pfx i
    if ok i then
      let r := dlLoop pfx total ok rest (i + 1) (completed + 1)
      (r.1, BgEvent.downloadProgress (completed + 1) total name :: r.2.1, name :: r.2.2)
    else
      let r := dlLoop pfx total ok rest (i + 1) completed
      (r.1, r.2.1, name :: r.2.2)

/-- processDownloadQueue (background.js lines 50-105): an early return if
already downloading; otherwise reset completed, set total, run the loop,
then clear isDownloading and the queue and emit DOWNLOAD_COMPLETE with
the completed count. -/
def processDownloadQueue (st : DownloadState) (ok : Nat → Bool) :
    DownloadState × List BgEvent × List String :=
  if st.isDownloading then (st, [], [])
  else
    let st1 := { st with isDownloading := true, completed := 0, total := st.queue.length }
    let r := dlLoop st1.pfx st1.total ok st1.queue 0 0
    ({ st1 with isDownloading := false, queue := [], completed := r.1 },
     r.2.1 ++ [BgEvent.downloadComplete r.1], r.2.2)

structure DlResponse where
  success : Bool
  total : Nat
  errMsg : Option String
deriving Repr, DecidableEq

/-- The DOWNLOAD_IMAGES case of the background message listener
(background.js lines 131-141).  With images present it assigns queue,
prefix (|| 'story') and delay (|| 500), invokes processDownloadQueue and
answers { success: true, total }; without images it answers failure. -/
def handleDownloadImages (st : DownloadState) (images : Option (List DlTask))
    (pfxArg : String) (delayArg : Nat) (ok : Nat → Bool) :
    DownloadState × DlResponse × List BgEvent :=
  match images with
  | none => (st, ⟨false, 0, some "No images provided"⟩, [])
  | some imgs =>
    let st1 := { st with queue := imgs
                         pfx := if pfxArg = "" then "story" else pfxArg
                         delay := if delayArg = 0 then 500 else delayArg }
    let r := processDownloadQueue st1 ok
    (r.1, ⟨true, imgs.length, none⟩, r.2.1)

/-- The GET_DOWNLOAD_STATUS case of the background message listener
(background.js lines 151-157). -/
def getDownloadStatus (st : DownloadState) : Bool × Nat × Nat :=
  (st.isDownloading, st.completed, st.total)

/-! ## Supporting lemmas for the download queue -/

/-- Every filename handed to the downloads API is determined by the queue
position alone. -/
theorem dlLoop_names (pfx : String) (total : Nat) (ok : Nat → Bool) :
    ∀ (q : List DlTask) (i c : Nat),
      (dlLoop pfx total ok q i c).2.2 = (List.range' i q.length).map (downloadFilename pfx) := by
  intro q
  induction q with
  | nil => intro i c; simp [dlLoop]
  | cons t rest ih =>
    intro i c
    by_cases h : ok i
    · simp [dlLoop, h, List.range'_succ, ih]
    · simp [dlLoop, h, List.range'_succ, ih]

/-- The completed counter ends at its start value plus the number of
successful positions. -/
theorem dlLoop_completed (pfx : String) (total : Nat) (ok : Nat → Bool) :
    ∀ (q : List DlTask) (i c : Nat),
      (dlLoop pfx total ok q i c).1 = c + (List.range' i q.length).countP ok := by
  intro q
  induction q with
  | nil => intro i c; simp [dlLoop]
  | cons t rest ih =>
    intro i c
    by_cases h : ok i
    · simp [dlLoop, h, List.range'_succ, List.countP_cons, ih]
      omega
    · simp [dlLoop, h, List.range'_succ, List.countP_cons, ih]

/-! ## Claim theorems: background.js -/

/-- C8: for every queue of tasks with prefix p, the task at 0-based
position i is downloaded under p_NNN.png with NNN = i + 1 left-padded
with zeros to three digits; a 12-item queue with prefix "story" yields
story_001.png through story_012.png in enqueue order. -/
theorem download_filenames_by_position (st : DownloadState) (ok : Nat → Bool)
    (h : st.isDownloading = false) :
    (processDownloadQueue st ok).2.2
        = (List.range st.queue.length).map (downloadFilename st.pfx) ∧
    (List.range 12).map (downloadFilename "story") =
      ["story_001.png", "story_002.png", "story_003.png", "story_004.png", "story_005.png",
       "story_006.png", "story_007.png", "story_008.png", "story_009.png", "story_010.png",
       "story_011.png", "story_012.png"] := by
  constructor
  · simp [processDownloadQueue, h, dlLoop_names, List.range_eq_range']
  · decide

theorem download_filenames_by_position_witness :
    (processDownloadQueue ⟨false, [⟨"u"⟩], 0, 0, "story", 500⟩ (fun _ => true)).2.2
      = (List.range 1).map (downloadFilename "story") :=
  (download_filenames_by_position ⟨false, [⟨"u"⟩], 0, 0, "story", 500⟩ (fun _ => true) rfl).1

/-- C9 counterexample: after a drained 1-item queue whose download
succeeded, the completed counter still holds 1, refuting that the
completed-count is reset to zero after completion. -/
theorem download_completed_not_reset_cex :
    (processDownloadQueue ⟨false, [⟨"u"⟩], 5, 9, "story", 500⟩ (fun _ => true)).1.completed = 1 ∧
    ¬ (processDownloadQueue ⟨false, [⟨"u"⟩], 5, 9, "story", 500⟩
        (fun _ => true)).1.completed = 0 := by
  decide

/-- C9 amended: when the queue drains, the final event is
DOWNLOAD_COMPLETE carrying exactly the number of successful downloads;
the queue is reset to empty and isDownloading to false, but the
completed counter retains the succeeded count (it is zeroed only at the
start of the next run). -/
theorem download_complete_count_and_reset (st : DownloadState) (ok : Nat → Bool)
    (h : st.isDownloading = false) :
    (processDownloadQueue st ok).2.1.getLast?
        = some (BgEvent.downloadComplete ((List.range st.queue.length).countP ok)) ∧
    (processDownloadQueue st ok).1.queue = [] ∧
    (processDownloadQueue st ok).1.isDownloading = false ∧
    (processDownloadQueue st ok).1.completed = (List.range st.queue.length).countP ok := by
  refine ⟨?_, ?_, ?_, ?_⟩ <;>
    simp [processDownloadQueue, h, dlLoop_completed, List.range_eq_range', List.getLast?_concat]

theorem download_complete_count_and_reset_witness :
    (processDownloadQueue ⟨false, [⟨"u"⟩], 5, 9, "story", 500⟩ (fun _ => true)).1.completed
      = (List.range 1).countP (fun _ => true) :=
  (download_complete_count_and_reset ⟨false, [⟨"u"⟩], 5, 9, "story", 500⟩
    (fun _ => true) rfl).2.2.2

/-- C2 (code bug): a DOWNLOAD_IMAGES request arriving while a download run
is active is not rejected: the handler overwrites the in-flight queue,
prefix and delay, and answers success, with only the processing loop
being skipped; once the prior queue has drained a new request is accepted
and processed to completion. -/
theorem downloadImages_busy_overwrites_and_succeeds :
    handleDownloadImages ⟨true, [⟨"u1"⟩], 0, 1, "story", 500⟩
        (some [⟨"u2"⟩, ⟨"u3"⟩]) "alt" 250 (fun _ => true)
      = (⟨true, [⟨"u2"⟩, ⟨"u3"⟩], 0, 1, "alt", 250⟩, ⟨true, 2, none⟩, []) ∧
    (handleDownloadImages ⟨false, [], 0, 0, "story", 500⟩ (some [⟨"u4"⟩]) "alt" 250
        (fun _ => true)).2.1 = ⟨true, 1, none⟩ ∧
    (handleDownloadImages ⟨false, [], 0, 0, "story", 500⟩ (some [⟨"u4"⟩]) "alt" 250
        (fun _ => true)).1.isDownloading = false ∧
    (handleDownloadImages ⟨false, [], 0, 0, "story", 500⟩ (some [⟨"u4"⟩]) "alt" 250
        (fun _ => true)).2.2.getLast? = some (BgEvent.downloadComplete 1) := by
  decide

/-! ## Claim theorems: control handlers and artifact extraction -/

/-- C10: the pause / resume / stop handlers leave every field of the
automation state other than the isRunning / isPaused flags unchanged, and
answer success. -/
theorem control_handlers_frame (s : AutomationState) (m : ControlMsg) :
    (handleControlMessage s m).1.prompts = s.prompts ∧
    (handleControlMessage s m).1.currentIndex = s.currentIndex ∧
    (handleControlMessage s m).1.settings = s.settings ∧
    (handleControlMessage s m).1.characterImageData = s.characterImageData ∧
    (handleControlMessage s m).1.generatedImages = s.generatedImages ∧
    (handleControlMessage s m).1.lastGeneratedCount = s.lastGeneratedCount ∧
    (handleControlMessage s m).2 = true := by
  cases m <;> simp [handleControlMessage]

/-- C7: the artifact list produced on completion is a permutation of the
collected artifacts sorted ascending by the recorded order field,
independent of collection order; artifacts recorded with structural
positions 2, 0, 1 come back in order 0, 1, 2. -/
theorem extractAllImages_sorted_by_order (imgs : List PageImg) :
    (extractAllImages imgs).Sorted imgLE ∧
    (extractAllImages imgs).Perm (collectImages imgs) ∧
    (extractAllImages
        [⟨"u0", "Flow Image: p0", some 2⟩, ⟨"u1", "Flow Image: p1", some 0⟩,
         ⟨"u2", "Flow Image: p2", some 1⟩]).map ImageData.order = [0, 1, 2] :=
  ⟨List.sorted_insertionSort imgLE (collectImages imgs),
   List.perm_insertionSort imgLE (collectImages imgs),
   by decide⟩

/-! ## Supporting lemmas for the wait primitives -/

/-- Invariant of the waitForElement state machine: a satisfied resolution
has disconnected the observer, a timed-out resolution has stopped both
resources, and an active observer means the wait is still pending. -/
def waitElemInv (s : WaitSt) : Prop :=
  (s.result = WaitRes.satisfied → s.observerActive = false) ∧
  (s.result = WaitRes.timedOut → s.observerActive = false ∧ s.intervalActive = false) ∧
  (s.observerActive = true → s.result = WaitRes.pending)

theorem waitElemStep_inv (t : Nat) (s : WaitSt) (e : WaitEv) (h : waitElemInv s) :
    waitElemInv (waitElemStep t s e) := by
  obtain ⟨h1, h2, h3⟩ := h
  cases e with
  | mutation p =>
    simp only [waitElemStep]
    split
    · rename_i hc
      rw [Bool.and_eq_true] at hc
      have hpend := h3 hc.1
      simp [waitElemInv, hpend]
    · exact ⟨h1, h2, h3⟩
  | tick el p =>
    simp only [waitElemStep]
    split
    · simp [waitElemInv]
    · exact ⟨h1, h2, h3⟩

theorem foldl_waitElemStep_inv (t : Nat) (trace : List WaitEv) :
    ∀ s : WaitSt, waitElemInv s → waitElemInv (trace.foldl (waitElemStep t) s) := by
  induction trace with
  | nil => intro s h; simpa using h
  | cons e rest ih => intro s h; exact ih _ (waitElemStep_inv t s e h)

theorem runWaitElem_inv (t : Nat) (p0 : Bool) (trace : List WaitEv) :
    waitElemInv (runWaitElem t p0 trace) := by
  apply foldl_waitElemStep_inv
  cases p0 <;> simp [waitInit, waitElemInv]

/-- A state with both resources stopped is a fixed point of the
waitForElement callbacks. -/
theorem waitElemStep_inactive (t : Nat) (r : WaitRes) (e : WaitEv) :
    waitElemStep t ⟨false, false, r⟩ e = ⟨false, false, r⟩ := by
  cases e <;> simp [waitElemStep]

theorem runWaitElem_immediate (t : Nat) (trace : List WaitEv) :
    runWaitElem t true trace = ⟨false, false, WaitRes.satisfied⟩ := by
  show trace.foldl (waitElemStep t) (waitInit true) = _
  have hfix : ∀ l : List WaitEv,
      l.foldl (waitElemStep t) ⟨false, false, WaitRes.satisfied⟩
        = ⟨false, false, WaitRes.satisfied⟩ := by
    intro l
    induction l with
    | nil => rfl
    | cons e rest ih => simpa [waitElemStep_inactive] using ih
  simpa [waitInit] using hfix trace

/-! ## Claim theorems: wait primitives -/

/-- C3 counterexample: when the element appears via a mutation
notification, waitForElement resolves with the observer disconnected but
the 100 ms polling interval still active, refuting that all timers are
stopped on every resolution path. -/
theorem waitForElement_interval_leak_cex :
    (runWaitElem 30000 false [WaitEv.mutation true]).result = WaitRes.satisfied ∧
    (runWaitElem 30000 false [WaitEv.mutation true]).intervalActive = true := by
  decide

/-- C3 amended: on the condition-already-true path no observer or interval
is ever created, and on the timeout path both are stopped at resolution;
on the notification path the observer is disconnected before resolving,
but the polling interval stays active until a later tick past the
deadline clears it. -/
theorem waitForElement_cleanup_paths (t : Nat) (p0 : Bool) (trace : List WaitEv) :
    (p0 = true → runWaitElem t p0 trace = ⟨false, false, WaitRes.satisfied⟩) ∧
    ((runWaitElem t p0 trace).result = WaitRes.timedOut →
      (runWaitElem t p0 trace).observerActive = false ∧
      (runWaitElem t p0 trace).intervalActive = false) ∧
    ((runWaitElem t p0 trace).result = WaitRes.satisfied →
      (runWaitElem t p0 trace).observerActive = false) ∧
    (∀ (e : Nat) (pr : Bool), t < e →
      (runWaitElem t p0 (trace ++ [WaitEv.tick e pr])).intervalActive = false) := by
  refine ⟨?_, (runWaitElem_inv t p0 trace).2.1, (runWaitElem_inv t p0 trace).1, ?_⟩
  · rintro rfl
    exact runWaitElem_immediate t trace
  · intro e pr he
    show ((trace ++ [WaitEv.tick e pr]).foldl (waitElemStep t) (waitInit p0)).intervalActive = false
    rw [List.foldl_append]
    set s := trace.foldl (waitElemStep t) (waitInit p0) with hs
    by_cases hi : s.intervalActive
    · simp [waitElemStep, hi, he]
    · simp [waitElemStep, hi]

theorem waitForElement_cleanup_paths_witness :
    (runWaitElem 100 false [WaitEv.tick 200 false]).observerActive = false ∧
    (runWaitElem 100 false [WaitEv.tick 200 false]).intervalActive = false :=
  (waitForElement_cleanup_paths 100 false [WaitEv.tick 200 false]).2.1 (by decide)

/-- C4 counterexample: with timeout 300, the element becomes present at
elapsed 100 but no mutation notification fires; waitForElement resolves
TimedOut, refuting that its fallback interval re-evaluates the condition. -/
theorem waitForElement_no_condition_poll_cex :
    (runWaitElem 300 false
        [WaitEv.tick 100 true, WaitEv.tick 200 true, WaitEv.tick 400 true]).result
      = WaitRes.timedOut ∧
    ¬ (runWaitElem 300 false
        [WaitEv.tick 100 true, WaitEv.tick 200 true, WaitEv.tick 400 true]).result
      = WaitRes.satisfied := by
  decide

/-- Invariant of waitForAnyElement: while the wait is pending, its polling
interval is still installed. -/
def waitAnyInv (s : WaitSt) : Prop :=
  s.result = WaitRes.pending → s.intervalActive = true

theorem waitAnyStep_inv (t : Nat) (s : WaitSt) (e : WaitEv) (h : waitAnyInv s) :
    waitAnyInv (waitAnyStep t s e) := by
  cases e with
  | mutation p =>
    simp only [waitAnyStep]
    split
    · intro hr
      by_cases hp : s.result = WaitRes.pending <;> simp [hp] at hr
    · exact h
  | tick el p =>
    simp only [waitAnyStep]
    split
    · split
      · intro hr
        by_cases hp : s.result = WaitRes.pending <;> simp [hp] at hr
      · split
        · intro hr
          by_cases hp : s.result = WaitRes.pending <;> simp [hp] at hr
        · exact h
    · exact h

theorem runWaitAny_inv (t : Nat) (p0 : Bool) (trace : List WaitEv) :
    waitAnyInv (runWaitAny t p0 trace) := by
  have : ∀ (l : List WaitEv) (s : WaitSt), waitAnyInv s →
      waitAnyInv (l.foldl (waitAnyStep t) s) := by
    intro l
    induction l with
    | nil => intro s h; simpa using h
    | cons e rest ih => intro s h; exact ih _ (waitAnyStep_inv t s e h)
  apply this
  cases p0 <;> simp [waitInit, waitAnyInv]

/-- C4 amended: waitForElement's fallback interval tests only the
deadline — its outcome is independent of whether the condition currently
holds — while waitForAnyElement's interval does re-evaluate the
condition, so a pending waitForAnyElement resolves Satisfied at the next
tick once the condition has become true, even with no notification. -/
theorem wait_polling_fallback (t : Nat) (p0 : Bool) (trace : List WaitEv) :
    (∀ (s : WaitSt) (e : Nat) (p q : Bool),
      waitElemStep t s (WaitEv.tick e p) = waitElemStep t s (WaitEv.tick e q)) ∧
    (∀ e : Nat, (runWaitAny t p0 trace).result = WaitRes.pending →
      (runWaitAny t p0 (trace ++ [WaitEv.tick e true])).result = WaitRes.satisfied) := by
  constructor
  · intro s e p q
    simp [waitElemStep]
  · intro e hp
    have hi : (runWaitAny t p0 trace).intervalActive = true := runWaitAny_inv t p0 trace hp
    show ((trace ++ [WaitEv.tick e true]).foldl (waitAnyStep t) (waitInit p0)).result
      = WaitRes.satisfied
    rw [List.foldl_append]
    have : (trace.foldl (waitAnyStep t) (waitInit p0)) = runWaitAny t p0 trace := rfl
    rw [this]
    simp [waitAnyStep, hi, hp]

theorem wait_polling_fallback_witness :
    (runWaitAny 300 false ([WaitEv.tick 100 false] ++ [WaitEv.tick 150 true])).result
      = WaitRes.satisfied :=
  (wait_polling_fallback 300 false [WaitEv.tick 100 false]).2 150 (by decide)

/-! ## Supporting lemmas for the retry loop -/

theorem runAttempts_le (retries : Nat) (att : Nat → AttemptOutcome) :
    ∀ (l : List Nat) (made slept : Nat),
      (runAttempts retries att l made slept).2.1 ≤ made + l.length := by
  intro l
  induction l with
  | nil => intro made slept; simp [runAttempts]
  | cons a rest ih =>
    intro made slept
    cases h : att a with
    | success => simp only [runAttempts, h, List.length_cons]; omega
    | thrown =>
      have := ih (made + 1) (if a < retries then slept + 1 else slept)
      simp [runAttempts, h]
      omega
    | genTimeout =>
      have := ih (made + 1) (if a < retries then slept + 1 else slept)
      simp [runAttempts, h]
      omega

theorem runAttempts_all_fail (retries : Nat) (att : Nat → AttemptOutcome) :
    ∀ (l : List Nat) (made slept : Nat), (∀ a ∈ l, att a ≠ AttemptOutcome.success) →
      runAttempts retries att l made slept
        = (false, made + l.length, slept + l.countP (fun a => decide (a < retries))) := by
  intro l
  induction l with
  | nil => intro made slept _; simp [runAttempts]
  | cons a rest ih =>
    intro made slept h
    have ha := h a (List.mem_cons_self a rest)
    have hrest : ∀ x ∈ rest, att x ≠ AttemptOutcome.success :=
      fun x hx => h x (List.mem_cons_of_mem a hx)
    cases hatt : att a with
    | success => exact absurd hatt ha
    | thrown =>
      rw [List.countP_cons]
      simp only [runAttempts, hatt]
      rw [ih (made + 1) (if a < retries then slept + 1 else slept) hrest]
      by_cases hlt : a < retries <;> simp [hlt] <;> omega
    | genTimeout =>
      rw [List.countP_cons]
      simp only [runAttempts, hatt]
      rw [ih (made + 1) (if a < retries then slept + 1 else slept) hrest]
      by_cases hlt : a < retries <;> simp [hlt] <;> omega

theorem runAttempts_succ_at_end (retries : Nat) (att : Nat → AttemptOutcome) :
    ∀ (l : List Nat) (b made slept : Nat), (∀ a ∈ l, att a ≠ AttemptOutcome.success) →
      att b = AttemptOutcome.success →
      runAttempts retries att (l ++ [b]) made slept
        = (true, made + l.length + 1, slept + l.countP (fun a => decide (a < retries))) := by
  intro l
  induction l with
  | nil => intro b made slept _ hb; simp [runAttempts, hb]
  | cons a rest ih =>
    intro b made slept h hb
    have ha := h a (List.mem_cons_self a rest)
    have hrest : ∀ x ∈ rest, att x ≠ AttemptOutcome.success :=
      fun x hx => h x (List.mem_cons_of_mem a hx)
    cases hatt : att a with
    | success => exact absurd hatt ha
    | thrown =>
      rw [List.countP_cons]
      simp only [List.cons_append, runAttempts, hatt, List.append_eq]
      rw [ih b (made + 1) (if a < retries then slept + 1 else slept) hrest hb]
      by_cases hlt : a < retries <;> simp [hlt] <;> omega
    | genTimeout =>
      rw [List.countP_cons]
      simp only [List.cons_append, runAttempts, hatt, List.append_eq]
      rw [ih b (made + 1) (if a < retries then slept + 1 else slept) hrest hb]
      by_cases hlt : a < retries <;> simp [hlt] <;> omega

/-- The attempt numbers strictly below the budget among 1..R are exactly
the first R-1 of them. -/
theorem countP_range'_lt (R : Nat) :
    (List.range' 1 R).countP (fun a => decide (a < R)) = R - 1 := by
  cases R with
  | zero => simp
  | succ n =>
    rw [List.range'_concat]
    rw [List.countP_append]
    have h1 : (List.range' 1 n).countP (fun a => decide (a < n + 1)) = n := by
      have := List.countP_eq_length (p := fun a => decide (a < n + 1))
          (l := List.range' 1 n) |>.mpr ?_
      · simpa using this
      · intro a ha
        rw [List.mem_range'] at ha
        obtain ⟨i, hi, rfl⟩ := ha
        simp
        omega
    simp [h1]
    omega

/-! ## Claim theorems: retry policy -/

/-- C5: with retry budget R, processPrompt performs at most R attempts; an
always-failing sequence performs exactly R attempts, returns failure and
sleeps the backoff R-1 times (between attempts, never after the last);
a sequence failing before attempt R and succeeding at attempt R performs
exactly R attempts, returns success at the first success, and also
sleeps exactly R-1 times. -/
theorem processPrompt_retry_budget (R : Nat) (att : Nat → AttemptOutcome) :
    (processPrompt R att).2.1 ≤ R ∧
    ((∀ k, att k ≠ AttemptOutcome.success) →
      processPrompt R att = (false, R, R - 1)) ∧
    ((∀ k, k < R → att k ≠ AttemptOutcome.success) → att R = AttemptOutcome.success →
      1 ≤ R → processPrompt R att = (true, R, R - 1)) := by
  refine ⟨?_, ?_, ?_⟩
  · have := runAttempts_le R att (List.range' 1 R) 0 0
    simpa [processPrompt] using this
  · intro h
    have := runAttempts_all_fail R att (List.range' 1 R) 0 0 (fun a _ => h a)
    simpa [processPrompt, countP_range'_lt] using this
  · intro h hR h1
    have hsplit : List.range' 1 R = List.range' 1 (R - 1) ++ [R] := by
      have h2 := List.range'_1_concat 1 (R - 1)
      have heq : R - 1 + 1 = R := by omega
      have heq2 : 1 + (R - 1) = R := by omega
      rw [heq, heq2] at h2
      exact h2
    have hfail : ∀ a ∈ List.range' 1 (R - 1), att a ≠ AttemptOutcome.success := by
      intro a ha
      rw [List.mem_range'] at ha
      obtain ⟨i, hi, rfl⟩ := ha
      exact h _ (by omega)
    have := runAttempts_succ_at_end R att (List.range' 1 (R - 1)) R 0 0 hfail hR
    rw [processPrompt, hsplit, this]
    have hcount : (List.range' 1 (R - 1)).countP (fun a => decide (a < R)) = R - 1 := by
      have := List.countP_eq_length (p := fun a => decide (a < R))
          (l := List.range' 1 (R - 1)) |>.mpr ?_
      · simpa using this
      · intro a ha
        rw [List.mem_range'] at ha
        obtain ⟨i, hi, rfl⟩ := ha
        simp
        omega
    rw [hcount]
    simp
    omega

theorem processPrompt_retry_budget_witness :
    processPrompt 3 (fun k => if k < 3 then AttemptOutcome.thrown else AttemptOutcome.success)
      = (true, 3, 2) :=
  (processPrompt_retry_budget 3
      (fun k => if k < 3 then AttemptOutcome.thrown else AttemptOutcome.success)).2.2
    (fun k hk => by simp [hk]) (by decide) (by decide)

/-! ## Supporting lemmas for the automation loop -/

theorem pauseWait_not_paused (f : Flags) (obs : List Flags) (h : f.isPaused = false) :
    pauseWait f obs = PauseResult.proceed f := by
  cases obs <;> simp [pauseWait, h]

theorem pauseWait_all_paused :
    ∀ (obs : List Flags) (f : Flags), f.isPaused = true →
      (∀ g ∈ obs, g.isRunning = true ∧ g.isPaused = true) →
      pauseWait f obs = PauseResult.blocked := by
  intro obs
  induction obs with
  | nil => intro f hf _; simp [pauseWait, hf]
  | cons g rest ih =>
    intro f hf h
    obtain ⟨hr, hp⟩ := h g (List.mem_cons_self g rest)
    simp only [pauseWait, hf, if_true, hr]
    exact ih g hp (fun x hx => h x (List.mem_cons_of_mem g hx))

theorem pauseWait_stop :
    ∀ (l1 : List Flags) (f g : Flags) (l2 : List Flags),
      f.isPaused = true → (∀ x ∈ l1, x.isRunning = true ∧ x.isPaused = true) →
      g.isRunning = false →
      pauseWait f (l1 ++ g :: l2) = PauseResult.stopped := by
  intro l1
  induction l1 with
  | nil => intro f g l2 hf _ hg; simp [pauseWait, hf, hg]
  | cons x rest ih =>
    intro f g l2 hf h hg
    obtain ⟨hr, hp⟩ := h x (List.mem_cons_self x rest)
    simp only [List.cons_append, pauseWait, hf, if_true, hr]
    exact ih x g l2 hp (fun y hy => h y (List.mem_cons_of_mem x hy)) hg

theorem progressCurrents_append (l1 l2 : List Event) :
    progressCurrents (l1 ++ l2) = progressCurrents l1 ++ progressCurrents l2 := by
  induction l1 with
  | nil => simp [progressCurrents]
  | cons e rest ih => cases e <;> simp [progressCurrents, ih]

theorem progressPattern_length (i n : Nat) : (progressPattern i n).length = 2 * n := by
  induction n generalizing i with
  | zero => simp [progressPattern]
  | succ m ih => simp [progressPattern, ih]; omega

/-- A run whose flags are observed running and unpaused at every iteration
entry completes, and emits per item the Progress pair (i, i+1). -/
theorem runLoop_completed (total : Nat) (obs : Nat → IterObs)
    (h : ∀ j, (obs j).entry.isRunning = true ∧ (obs j).entry.isPaused = false) :
    ∀ (prompts : List String) (i : Nat),
      (runLoop total obs i prompts).2 = RunOutcome.completed ∧
      progressCurrents (runLoop total obs i prompts).1 = progressPattern i prompts.length := by
  intro prompts
  induction prompts with
  | nil => intro i; simp [runLoop, progressPattern, progressCurrents]
  | cons p rest ih =>
    intro i
    obtain ⟨hr, hp⟩ := h i
    have hw := pauseWait_not_paused (obs i).entry (obs i).pauseObs hp
    obtain ⟨ih1, ih2⟩ := ih (i + 1)
    by_cases hs : (obs i).success
    · constructor
      · simp [runLoop, hr, hw, hs, ih1]
      · simp [runLoop, hr, hw, hs, progressCurrents, progressPattern, ih2]
    · constructor
      · simp [runLoop, hr, hw, hs, ih1]
      · simp [runLoop, hr, hw, hs, progressCurrents, progressPattern, ih2]

/-! ## Claim theorems: automation loop -/

/-- C1 counterexample: a completed run over 2 prompts emits the Progress
currents 0, 1, 1, 2 — four events, not N + 1 = 3, and not strictly
increasing. -/
theorem runAutomation_progress_count_cex :
    progressCurrents (runAutomation ["a", "b"] 0 (fun _ => ⟨⟨true, false⟩, [], true⟩) []).1
      = [0, 1, 1, 2] ∧
    (runAutomation ["a", "b"] 0 (fun _ => ⟨⟨true, false⟩, [], true⟩) []).2
      = RunOutcome.completed ∧
    ¬ (progressCurrents
        (runAutomation ["a", "b"] 0 (fun _ => ⟨⟨true, false⟩, [], true⟩) []).1).length
      = 2 + 1 := by
  refine ⟨by decide, by decide, by decide⟩

/-- C1 amended: a run over N prompts that runs to completion emits exactly
2N Progress events — for each item i one with current = i before
processing and one with current = i + 1 after — so the sequence of
currents is 0, 1, 1, 2, ..., N-1, N: non-decreasing from 0 to N rather
than N + 1 strictly increasing values. -/
theorem runAutomation_completed_progress (prompts : List String) (page : List PageImg)
    (obs : Nat → IterObs)
    (h : ∀ j, (obs j).entry.isRunning = true ∧ (obs j).entry.isPaused = false) :
    (runAutomation prompts 0 obs page).2 = RunOutcome.completed ∧
    progressCurrents (runAutomation prompts 0 obs page).1 = progressPattern 0 prompts.length ∧
    (progressCurrents (runAutomation prompts 0 obs page).1).length = 2 * prompts.length := by
  obtain ⟨h1, h2⟩ := runLoop_completed prompts.length obs h prompts 0
  refine ⟨?_, ?_, ?_⟩
  · simpa [runAutomation] using h1
  · simp [runAutomation, progressCurrents_append, progressCurrents, h2]
  · simp [runAutomation, progressCurrents_append, progressCurrents, h2,
      progressPattern_length]

theorem runAutomation_completed_progress_witness :
    (runAutomation ["a", "b", "c"] 0 (fun _ => ⟨⟨true, false⟩, [], true⟩) []).2
        = RunOutcome.completed ∧
    progressCurrents (runAutomation ["a", "b", "c"] 0
        (fun _ => ⟨⟨true, false⟩, [], true⟩) []).1 = progressPattern 0 3 ∧
    (progressCurrents (runAutomation ["a", "b", "c"] 0
        (fun _ => ⟨⟨true, false⟩, [], true⟩) []).1).length = 2 * 3 := by
  have := runAutomation_completed_progress ["a", "b", "c"] []
      (fun _ => ⟨⟨true, false⟩, [], true⟩) (fun _ => ⟨rfl, rfl⟩)
  simpa using this

/-- C6: with the loop at item i and the flags showing running and paused at
iteration entry, (a) while every pause-loop observation stays running and
paused the loop stays blocked in the pause wait and emits nothing for
item i or later; (b) if some pause-loop observation shows isRunning
false after a (possibly empty) paused-and-running prefix, the loop exits
the pause wait and stops without emitting anything for item i or later. -/
theorem runLoop_pause_block_stop (total i : Nat) (p : String) (rest : List String)
    (obs : Nat → IterObs) :
    ((obs i).entry.isRunning = true → (obs i).entry.isPaused = true →
      (∀ g ∈ (obs i).pauseObs, g.isRunning = true ∧ g.isPaused = true) →
      runLoop total obs i (p :: rest) = ([], RunOutcome.blockedInPause)) ∧
    (∀ (l1 : List Flags) (g : Flags) (l2 : List Flags),
      (obs i).entry.isRunning = true → (obs i).entry.isPaused = true →
      (obs i).pauseObs = l1 ++ g :: l2 →
      (∀ x ∈ l1, x.isRunning = true ∧ x.isPaused = true) →
      g.isRunning = false →
      runLoop total obs i (p :: rest) = ([], RunOutcome.stopped)) := by
  constructor
  · intro hr hp hobs
    have hw := pauseWait_all_paused (obs i).pauseObs (obs i).entry hp hobs
    simp [runLoop, hr, hw]
  · intro l1 g l2 hr hp heq hl1 hg
    have hw := pauseWait_stop l1 (obs i).entry g l2 hp hl1 hg
    simp [runLoop, hr, heq, hw]

theorem runLoop_pause_block_stop_witness :
    runLoop 1 (fun _ => ⟨⟨true, true⟩, [⟨true, true⟩, ⟨false, false⟩], true⟩) 0 ["a"]
      = ([], RunOutcome.stopped) :=
  (runLoop_pause_block_stop 1 0 "a" []
      (fun _ => ⟨⟨true, true⟩, [⟨true, true⟩, ⟨false, false⟩], true⟩)).2
    [⟨true, true⟩] ⟨false, false⟩ [] rfl rfl rfl
    (by intro x hx; simp at hx; simp [hx]) rfl

end Flow
